import Mathlib

/-!
Verification development for the todo-flask repository, core module
`src/todo.py`.  The operations all follow a load → modify → save cycle on a
single JSON file holding `{"next_id": int, "tasks": [...]}`.  We embed the
post-load (sanitized) collection as a Lean structure and each operation as a
pure function on an explicit store state; the store tracks the file contents
and the number of `save_data` calls, so that "saves once" / "does not save"
properties are expressible.

Python-specific semantics that the embedding reproduces:
- the `Task` dataclass default `created_at: str = now_iso()` (todo.py line 64)
  is evaluated once, when the module is loaded; every `Task(...)` constructed
  without an explicit `created_at` in the same process receives that same
  string.  The embedding threads this constant as the `moduleTime` argument
  of `add_task`;
- `t.due or "9999-12-31"` treats both `None` and the empty string as falsy;
- `list.sort` is stable; we embed it as a stable insertion sort with the same
  key, which computes the identical output list;
- Python `bool` ordering inside sort keys has `False < True`; we map it to
  `0 < 1` in `Nat`.
-/

namespace Todo

/-- Task record as stored after sanitization (todo.py lines 59-66).
Fields are exactly the dataclass fields; `due` and `completed_at` are
nullable strings. -/
structure Task where
  id : Int
  title : String
  completed : Bool
  created_at : String
  due : Option String
  completed_at : Option String
deriving Repr, DecidableEq

/-- The persisted aggregate: `{"next_id": ..., "tasks": [...]}` after a
successful, fully sanitized load. -/
structure Collection where
  next_id : Int
  tasks : List Task
deriving Repr, DecidableEq

/-- Store state: the current file contents plus a counter of `save_data`
calls, used to state how many times an operation saves. -/
structure Store where
  file : Collection
  saves : Nat
deriving Repr, DecidableEq

/-- The collection `load_data` returns when the backing file is absent
(todo.py line 82). -/
def emptyCollection : Collection := ⟨1, []⟩

/-- Initial store: absent file behaves as the empty collection; no saves yet. -/
def store0 : Store := ⟨emptyCollection, 0⟩

/-- Embedding of `save_data` (todo.py lines 97-99): overwrite the file with
the serialized collection; count the write. -/
def save_data (c : Collection) (s : Store) : Store := ⟨c, s.saves + 1⟩

/-- Embedding of `add_task` (todo.py lines 102-109).  `moduleTime` is the
value of the dataclass default `created_at = now_iso()`, evaluated at module
load; `add_task` itself never reads the clock. -/
def add_task (title : String) (due : Option String) (moduleTime : String) (s : Store) :
    Task × Store :=
  let tid := s.file.next_id
  let task : Task := ⟨tid, title, false, moduleTime, due, none⟩
  (task, save_data ⟨tid + 1, s.file.tasks ++ [task]⟩ s)

/-- The sentinel due date used by the sort key (todo.py line 123). -/
def sentinel : String := "9999-12-31"

/-- Embedding of `t.due or "9999-12-31"`: Python treats both `None` and the
empty string as falsy. -/
def dueOrSentinel (t : Task) : String :=
  match t.due with
  | none => sentinel
  | some d => if d = "" then sentinel else d

/-- Sort key for kinds pending/all (todo.py lines 122-125):
`((t.due is None, t.due or "9999-12-31"), t.created_at)`, with the Python
bool mapped to `0/1` (`False < True` becomes `0 < 1`). -/
def sortKey (t : Task) : Nat × String × String :=
  ((if t.due.isNone then 1 else 0), dueOrSentinel t, t.created_at)

/-- Lexicographic order on the sort key triples, as Python compares tuples. -/
def keyLe (x y : Nat × String × String) : Prop :=
  x.1 < y.1 ∨ (x.1 = y.1 ∧ (x.2.1 < y.2.1 ∨ (x.2.1 = y.2.1 ∧ x.2.2 ≤ y.2.2)))

instance (x y : Nat × String × String) : Decidable (keyLe x y) := by
  unfold keyLe; infer_instance

/-- Task comparison used when sorting kinds pending/all. -/
def pendingAllLe (a b : Task) : Prop := keyLe (sortKey a) (sortKey b)

instance : DecidableRel pendingAllLe :=
  fun a b => inferInstanceAs (Decidable (keyLe (sortKey a) (sortKey b)))

/-- Task comparison for kind done (todo.py line 127): sort by
`t.completed_at or ""` descending; stability means ties keep file order, so
the relation is the reversed non-strict comparison. -/
def doneLe (a b : Task) : Prop :=
  (b.completed_at.getD "") ≤ (a.completed_at.getD "")

instance : DecidableRel doneLe :=
  fun a b => inferInstanceAs (Decidable ((b.completed_at.getD "") ≤ (a.completed_at.getD "")))

/-- Embedding of `list_tasks` (todo.py lines 112-128): status filter, then a
stable sort with the kind-dependent key. -/
def list_tasks (kind : String) (s : Store) : List Task :=
  let tasks := s.file.tasks
  let tasks :=
    if kind = "pending" then tasks.filter (fun t => !t.completed)
    else if kind = "done" then tasks.filter (fun t => t.completed)
    else tasks
  if kind = "pending" ∨ kind = "all" then List.insertionSort pendingAllLe tasks
  else if kind = "done" then List.insertionSort doneLe tasks
  else tasks

/-- The loop body of `mark_done` (todo.py lines 135-139), processing the task
list in file order: returns the rewritten task list and the list of tasks
actually changed, in order. -/
def markLoop (ids : List Int) (now : String) : List Task → List Task × List Task
  | [] => ([], [])
  | t :: ts =>
    if ids.contains t.id && !t.completed then
      let t' : Task := { t with completed := true, completed_at := some now }
      let r := markLoop ids now ts
      (t' :: r.1, t' :: r.2)
    else
      let r := markLoop ids now ts
      (t :: r.1, r.2)

/-- Embedding of `mark_done` (todo.py lines 131-141).  `now` is the value of
`now_iso()` at the time of the call.  Saves exactly once. -/
def mark_done (ids : List Int) (now : String) (s : Store) : List Task × Store :=
  let r := markLoop ids now s.file.tasks
  (r.2, save_data ⟨s.file.next_id, r.1⟩ s)

/-- Embedding of `delete_tasks` (todo.py lines 144-151): drop every task
whose id is in the set, return `before - after`, save unconditionally. -/
def delete_tasks (ids : List Int) (s : Store) : Nat × Store :=
  let before := s.file.tasks.length
  let tasks' := s.file.tasks.filter (fun t => !(ids.contains t.id))
  (before - tasks'.length, save_data ⟨s.file.next_id, tasks'⟩ s)

/-- Field updates `edit_task` applies to the located task
(todo.py lines 158-166), in source order: title, then due (with `clear_due`
taking precedence over a supplied `due`), then the undone transition, which
fires only when the task is currently completed. -/
def applyEdit (title due : Option String) (clear_due undone : Bool) (t : Task) : Task :=
  let t := match title with | some x => { t with title := x } | none => t
  let t :=
    if clear_due then { t with due := none }
    else match due with | some d => { t with due := some d } | none => t
  if undone && t.completed then { t with completed := false, completed_at := none } else t

/-- The search loop of `edit_task`: finds the first task with the given id,
rewrites it, and returns it with the rewritten list; `none` when absent. -/
def editLoop (id_ : Int) (title due : Option String) (clear_due undone : Bool) :
    List Task → Option (Task × List Task)
  | [] => none
  | t :: ts =>
    if t.id = id_ then
      let t' := applyEdit title due clear_due undone t
      some (t', t' :: ts)
    else
      match editLoop id_ title due clear_due undone ts with
      | some (u, ts') => some (u, t :: ts')
      | none => none

/-- Embedding of `edit_task` (todo.py lines 154-169): on a found id the
rewritten collection is saved (exactly one save) and the updated task
returned; on a missing id nothing is saved and `none` is returned. -/
def edit_task (id_ : Int) (title due : Option String) (clear_due undone : Bool)
    (s : Store) : Option Task × Store :=
  match editLoop id_ title due clear_due undone s.file.tasks with
  | some (t', tasks') => (some t', save_data ⟨s.file.next_id, tasks'⟩ s)
  | none => (none, s)

/-- Embedding of `clear_tasks` (todo.py lines 172-184): mode `"done"` keeps
only uncompleted tasks, mode `"all"` empties the list and resets `next_id`
to 1, any other mode raises `ValueError` before any save. -/
def clear_tasks (mode : String) (s : Store) : Except String (Nat × Store) :=
  let before := s.file.tasks.length
  if mode = "done" then
    let tasks' := s.file.tasks.filter (fun t => !t.completed)
    Except.ok (before - tasks'.length, save_data ⟨s.file.next_id, tasks'⟩ s)
  else if mode = "all" then
    Except.ok (before, save_data ⟨1, []⟩ s)
  else
    Except.error "Unknown clear mode"

/-- Result record of `stats` (todo.py line 197). -/
structure StatsResult where
  total : Nat
  pending : Nat
  done : Nat
  overdue : Nat
deriving Repr, DecidableEq

/-- The overdue test of `stats` (todo.py line 195):
`not completed and t.get("due") and t["due"] < today`; a `due` of `None` or
`""` is falsy and never counts. -/
def isOverdue (today : String) (t : Task) : Bool :=
  !t.completed &&
    (match t.due with
     | some d => !(d = "") && decide (d < today)
     | none => false)

/-- Embedding of `stats` (todo.py lines 187-197).  `today` is
`date.today().isoformat()` at call time. -/
def stats (today : String) (s : Store) : StatsResult :=
  let total := s.file.tasks.length
  let done := s.file.tasks.countP (fun t => t.completed)
  ⟨total, total - done, done, s.file.tasks.countP (isOverdue today)⟩

/-!
Model of `load_data` (todo.py lines 80-94) over raw JSON values, for the
error-behavior claims.  `json.load` yields nested Python values; we model
them with a small JSON type (floats omitted — no claim exercises them).
A task record that passed through `Task.from_dict` keeps `due` and
`completed_at` verbatim, so the raw task type carries those two as JSON.
Uncaught Python exceptions (`SystemExit`, `ValueError`, `TypeError`,
`KeyError`) all abort the load; they are collapsed into `LoadResult.fatal`
with a message naming the exception.
-/

/-- JSON value as produced by `json.load` (floats omitted). -/
inductive Json where
  | null
  | bool (b : Bool)
  | num (n : Int)
  | str (s : String)
  | arr (elts : List Json)
  | obj (fields : List (String × Json))

/-- Dict lookup `d[k]` / `d.get(k)` on the field list (keys of a parsed JSON
object are unique; first match). -/
def jLookup (fields : List (String × Json)) (k : String) : Option Json :=
  (fields.find? (fun kv => kv.1 = k)).map (fun kv => kv.2)

/-- Embedding of `dict.setdefault(k, v)`: insert only when the key is
absent. -/
def jSetdefault (fields : List (String × Json)) (k : String) (v : Json) :
    List (String × Json) :=
  match jLookup fields k with
  | some _ => fields
  | none => fields ++ [(k, v)]

/-- Python iteration `for t in x` over a JSON-derived value: lists yield
their elements, strings their one-character substrings, dicts their keys;
`None`, booleans and numbers raise `TypeError`. -/
def pyIterate : Json → Except String (List Json)
  | .arr xs => .ok xs
  | .str s => .ok (s.data.map (fun c => Json.str (String.mk [c])))
  | .obj kvs => .ok (kvs.map (fun kv => Json.str kv.1))
  | .null => .error "TypeError: not iterable"
  | .bool _ => .error "TypeError: not iterable"
  | .num _ => .error "TypeError: not iterable"

/-- Integer literal parsing as `int(str)` performs it: surrounding
whitespace stripped, an optional sign, then a nonempty digit run (exotic
forms such as digit-group underscores are omitted — no claim uses them). -/
def parsePyInt (s : String) : Option Int :=
  let cs := s.toList.dropWhile (fun c => c.isWhitespace)
  let cs := (cs.reverse.dropWhile (fun c => c.isWhitespace)).reverse
  match cs with
  | [] => none
  | c :: rest =>
    let signedDigits : Int × List Char :=
      if c = '-' then (-1, rest) else if c = '+' then (1, rest) else (1, c :: rest)
    if signedDigits.2.isEmpty || !(signedDigits.2.all (fun d => d.isDigit)) then none
    else some (signedDigits.1
      * signedDigits.2.foldl (fun acc d => acc * 10 + ((d.toNat : Int) - 48)) 0)

/-- Embedding of `int(v)` on a JSON-derived value: ints pass through, bools
are 0/1, strings are parsed; everything else raises. -/
def pyInt : Json → Except String Int
  | .num n => .ok n
  | .bool b => .ok (if b then 1 else 0)
  | .str s =>
    match parsePyInt s with
    | some n => .ok n
    | none => .error "ValueError: invalid literal for int"
  | .null => .error "TypeError: int of NoneType"
  | .arr _ => .error "TypeError: int of list"
  | .obj _ => .error "TypeError: int of dict"

/-- Embedding of `str(v)`: never fails.  The renderings of non-string
values are schematic (no claim depends on their exact text). -/
def pyStr : Json → String
  | .null => "None"
  | .bool b => if b then "True" else "False"
  | .num n => toString n
  | .str s => s
  | .arr _ => "[...]"
  | .obj _ => "{...}"

/-- Python truthiness `bool(v)` of a JSON-derived value. -/
def pyTruthy : Json → Bool
  | .null => false
  | .bool b => b
  | .num n => n != 0
  | .str s => s ≠ ""
  | .arr xs => !xs.isEmpty
  | .obj kvs => !kvs.isEmpty

/-- Task record as it leaves `Task.from_dict`: `id` coerced to int, `title`
stringified, `completed` truthiness-coerced, `created_at` defaulted, while
`due` and `completed_at` pass through verbatim as JSON. -/
structure RawTask where
  id : Int
  title : String
  completed : Bool
  created_at : String
  due : Json
  completed_at : Json

/-- Embedding of `Task.from_dict` (todo.py lines 68-77) on one raw record.
`now` is the value `now_iso()` would return during this load, used only
when `created_at` is absent or falsy.  A non-dict record, a missing `id` or
`title` key, or an `id` that `int()` rejects, raises and aborts the load. -/
def from_dict (now : String) : Json → Except String RawTask
  | .obj kvs => do
    let idv ← match jLookup kvs "id" with
      | some v => pure v
      | none => Except.error "KeyError: id"
    let tid ← pyInt idv
    let titlev ← match jLookup kvs "title" with
      | some v => pure v
      | none => Except.error "KeyError: title"
    let completedv := (jLookup kvs "completed").getD (Json.bool false)
    let createdv := (jLookup kvs "created_at").getD Json.null
    let created := if pyTruthy createdv then pyStr createdv else now
    pure
      { id := tid
        title := pyStr titlev
        completed := pyTruthy completedv
        created_at := created
        due := (jLookup kvs "due").getD Json.null
        completed_at := (jLookup kvs "completed_at").getD Json.null }
  | .str _ => .error "TypeError: string indices must be integers"
  | .null => .error "TypeError: not subscriptable"
  | .bool _ => .error "TypeError: not subscriptable"
  | .num _ => .error "TypeError: not subscriptable"
  | .arr _ => .error "TypeError: list indices must be integers"

/-- Sequential embedding of the list comprehension
`[asdict(Task.from_dict(t)) for t in data["tasks"]]`: the first raising
record aborts the whole load. -/
def mapFromDict (now : String) : List Json → Except String (List RawTask)
  | [] => .ok []
  | j :: js =>
    match from_dict now j with
    | .error m => .error m
    | .ok t =>
      match mapFromDict now js with
      | .error m => .error m
      | .ok ts => .ok (t :: ts)

/-- State of the backing file as `load_data` finds it. -/
inductive FileState where
  | absent
  | unparseable
  | parsed (j : Json)

/-- Outcome of `load_data`: a sanitized collection (the `next_id` value is
returned as found, unvalidated), or a fatal abort. -/
inductive LoadResult where
  | ok (next_id : Json) (tasks : List RawTask)
  | fatal (msg : String)

/-- Embedding of `load_data` (todo.py lines 80-94): an absent file is the
empty first-run collection; a `json.JSONDecodeError` becomes `SystemExit`;
a non-dict root raises `ValueError` (uncaught); missing keys default via
`setdefault`; each element produced by iterating the `tasks` value passes
through `Task.from_dict`, any failure aborting the load. -/
def load_data (now : String) : FileState → LoadResult
  | .absent => .ok (Json.num 1) []
  | .unparseable => .fatal "SystemExit: Failed to parse todos.json"
  | .parsed j =>
    match j with
    | .obj kvs =>
      let kvs := jSetdefault kvs "next_id" (Json.num 1)
      let kvs := jSetdefault kvs "tasks" (Json.arr [])
      match pyIterate ((jLookup kvs "tasks").getD Json.null) with
      | .error m => .fatal m
      | .ok elems =>
        match mapFromDict now elems with
        | .error m => .fatal m
        | .ok ts => .ok ((jLookup kvs "next_id").getD Json.null) ts
    | _ => .fatal "ValueError: Corrupt data file root"

/-- One mutating CLI operation, for stating reachability invariants. -/
inductive Op where
  | add (title : String) (due : Option String)
  | del (ids : List Int)
  | done (ids : List Int) (now : String)
  | edit (id_ : Int) (title due : Option String) (clear_due undone : Bool)
  | clear (mode : String)
deriving Repr, DecidableEq

/-- Apply one operation to the store, keeping only the resulting state.  A
`clear` with an unknown mode raises before saving, so the persisted state is
unchanged. -/
def applyOp (moduleTime : String) (o : Op) (s : Store) : Store :=
  match o with
  | .add t d => (add_task t d moduleTime s).2
  | .del ids => (delete_tasks ids s).2
  | .done ids now => (mark_done ids now s).2
  | .edit i t d c u => (edit_task i t d c u s).2
  | .clear m =>
    match clear_tasks m s with
    | .ok r => r.2
    | .error _ => s

/-- Run a sequence of operations left to right. -/
def run (moduleTime : String) (ops : List Op) (s : Store) : Store :=
  match ops with
  | [] => s
  | o :: rest => run moduleTime rest (applyOp moduleTime o s)

/-- The ids of the tasks, in file (creation) order. -/
def idsOf (ts : List Task) : List Int := ts.map (fun t => t.id)

/-- Identifier discipline: ids strictly increase in file order (hence are
distinct), every issued id is below `next_id`, and `next_id` is at least 1. -/
def idInvariant (c : Collection) : Prop :=
  (idsOf c.tasks).Pairwise (fun a b => a < b)
    ∧ (∀ t ∈ c.tasks, t.id < c.next_id)
    ∧ 1 ≤ c.next_id

instance (c : Collection) : Decidable (idInvariant c) := by
  unfold idInvariant; infer_instance

/-- Completion-timestamp discipline: `completed_at` is present exactly when
`completed` is true. -/
def stampInvariant (c : Collection) : Prop :=
  ∀ t ∈ c.tasks, t.completed_at.isSome = t.completed

instance (c : Collection) : Decidable (stampInvariant c) := by
  unfold stampInvariant; infer_instance

/-- Sample pending task with a due date, for concrete witnesses. -/
def tA : Task := ⟨1, "alpha", false, "2025-01-01T10:00:00Z", some "2025-02-01", none⟩

/-- Sample completed task without a due date, for concrete witnesses. -/
def tB : Task := ⟨2, "beta", true, "2025-01-02T10:00:00Z", none, some "2025-01-03T09:00:00Z"⟩

/-- Sample pending task with an earlier due date, for concrete witnesses. -/
def tC : Task := ⟨3, "gamma", false, "2025-01-03T10:00:00Z", some "2025-01-15", none⟩

/-- Sample store holding the three sample tasks, for concrete witnesses. -/
def sampleStore : Store := ⟨⟨4, [tA, tB, tC]⟩, 0⟩

/-! Helper lemmas. -/

/-- Dropping the elements satisfying `p` shortens a list by exactly the
number of elements satisfying `p`. -/
theorem length_sub_filter_not {α : Type} (p : α → Bool) (l : List α) :
    l.length - (l.filter (fun a => !(p a))).length = l.countP p := by
  induction l with
  | nil => rfl
  | cons a l ih =>
    have hle := List.length_filter_le (fun a => !(p a)) l
    by_cases h : p a
    all_goals simp [List.countP_cons, h, ← ih]
    all_goals omega

/-- The rewritten task list of the mark-done loop, elementwise. -/
theorem markLoop_tasks (ids : List Int) (now : String) (ts : List Task) :
    (markLoop ids now ts).1
      = ts.map (fun t =>
          if t.id ∈ ids ∧ t.completed = false
          then { t with completed := true, completed_at := some now } else t) := by
  induction ts with
  | nil => rfl
  | cons t ts ih =>
    by_cases hm : t.id ∈ ids <;> by_cases hc : t.completed <;>
      simp [markLoop, hm, hc, ih]

/-- The updated-tasks list returned by the mark-done loop. -/
theorem markLoop_updated (ids : List Int) (now : String) (ts : List Task) :
    (markLoop ids now ts).2
      = (ts.filter (fun t => decide (t.id ∈ ids ∧ t.completed = false))).map
          (fun t => { t with completed := true, completed_at := some now }) := by
  induction ts with
  | nil => rfl
  | cons t ts ih =>
    by_cases hm : t.id ∈ ids <;> by_cases hc : t.completed <;>
      simp [markLoop, hm, hc, ih]

/-- The edit loop returns `none` when no task has the requested id. -/
theorem editLoop_not_found (id_ : Int) (ti du : Option String) (cd ud : Bool)
    (ts : List Task) (h : ∀ t ∈ ts, ¬ t.id = id_) :
    editLoop id_ ti du cd ud ts = none := by
  induction ts with
  | nil => rfl
  | cons t ts ih =>
    simp only [editLoop]
    rw [if_neg (h t (by simp)), ih (fun x hx => h x (by simp [hx]))]

/-! Claim theorems. -/

/-- C10: every task created through `add` within a single process run
receives the identical `created_at` string: the dataclass default is the
module-load-time constant, so the value does not depend on the call, its
arguments, or the store state at call time. -/
theorem add_created_at_constant (mt t1 t2 : String) (d1 d2 : Option String)
    (s1 s2 : Store) :
    (add_task t1 d1 mt s1).1.created_at = (add_task t2 d2 mt s2).1.created_at := rfl

/-- C2: `clear "done"` removes exactly the completed tasks, keeps `next_id`,
returns the number removed and saves once; `clear "all"` removes every task,
resets `next_id` to 1, returns the full count and saves once; an `add` on
the cleared store issues id 1. -/
theorem clear_tasks_spec (s : Store) (ti : String) (d : Option String) (mt : String) :
    clear_tasks "done" s
      = Except.ok (s.file.tasks.countP (fun t => t.completed),
          save_data ⟨s.file.next_id, s.file.tasks.filter (fun t => !t.completed)⟩ s)
    ∧ clear_tasks "all" s
      = Except.ok (s.file.tasks.length, save_data ⟨1, []⟩ s)
    ∧ (add_task ti d mt (save_data ⟨1, []⟩ s)).1.id = 1 := by
  refine ⟨?_, rfl, rfl⟩
  unfold clear_tasks
  rw [if_pos rfl]
  exact congrArg Except.ok (congrArg (fun n => (n, _))
    (length_sub_filter_not (fun t => t.completed) s.file.tasks))

/-- C4: `mark_done` flips exactly the pending tasks whose id is in the set,
stamping them with the call-time `now`; every other task is unchanged; the
returned list is exactly the changed tasks, in file order; `next_id` is
unchanged and the collection is saved exactly once. -/
theorem mark_done_spec (ids : List Int) (now : String) (s : Store) :
    (mark_done ids now s).2.file.tasks
      = s.file.tasks.map (fun t =>
          if t.id ∈ ids ∧ t.completed = false
          then { t with completed := true, completed_at := some now } else t)
    ∧ (mark_done ids now s).1
      = (s.file.tasks.filter (fun t => decide (t.id ∈ ids ∧ t.completed = false))).map
          (fun t => { t with completed := true, completed_at := some now })
    ∧ (mark_done ids now s).2.file.next_id = s.file.next_id
    ∧ (mark_done ids now s).2.saves = s.saves + 1 :=
  ⟨markLoop_tasks ids now s.file.tasks, markLoop_updated ids now s.file.tasks, rfl, rfl⟩

/-- C6: an `edit` whose id matches no task returns `none`, performs no save,
and leaves the persisted state exactly as loaded. -/
theorem edit_not_found_spec (s : Store) (id_ : Int) (ti du : Option String)
    (cd ud : Bool) (h : ∀ t ∈ s.file.tasks, t.id ≠ id_) :
    edit_task id_ ti du cd ud s = (none, s) := by
  unfold edit_task
  rw [editLoop_not_found id_ ti du cd ud s.file.tasks h]

/-- Witness for C6: a concrete store with ids 1-3 and an edit aimed at id 9. -/
theorem edit_not_found_spec_witness :
    (∀ t ∈ sampleStore.file.tasks, t.id ≠ 9)
    ∧ edit_task 9 none none false false sampleStore = (none, sampleStore) :=
  ⟨by decide, edit_not_found_spec sampleStore 9 none none false false (by decide)⟩

/-- Field-level description of the rewrite `edit_task` applies to the task
it finds. -/
theorem applyEdit_fields (ti du : Option String) (cd ud : Bool) (t : Task) :
    (applyEdit ti du cd ud t).id = t.id
    ∧ (applyEdit ti du cd ud t).created_at = t.created_at
    ∧ (applyEdit ti du cd ud t).title = ti.getD t.title
    ∧ (applyEdit ti du cd ud t).due = (if cd then none else if du.isSome then du else t.due)
    ∧ (applyEdit ti du cd ud t).completed = (!ud && t.completed)
    ∧ (applyEdit ti du cd ud t).completed_at
        = (if ud && t.completed then none else t.completed_at) := by
  unfold applyEdit
  cases ti <;> cases du <;> cases cd <;> cases ud <;> cases ht : t.completed <;>
    simp [ht]

/-- The edit loop on a list holding the requested id: the first matching
task is rewritten with `applyEdit` and returned, and stays in the list. -/
theorem editLoop_found (id_ : Int) (ti du : Option String) (cd ud : Bool)
    (ts : List Task) (h : ∃ t ∈ ts, t.id = id_) :
    ∃ t₀ ts', t₀ ∈ ts ∧ t₀.id = id_
      ∧ editLoop id_ ti du cd ud ts = some (applyEdit ti du cd ud t₀, ts')
      ∧ applyEdit ti du cd ud t₀ ∈ ts' := by
  induction ts with
  | nil => simp at h
  | cons t ts ih =>
    by_cases ht : t.id = id_
    · exact ⟨t, applyEdit ti du cd ud t :: ts, by simp, ht,
        by simp [editLoop, ht], by simp⟩
    · have h' : ∃ x ∈ ts, x.id = id_ := by
        rcases h with ⟨x, hx, hxid⟩
        rcases List.mem_cons.mp hx with rfl | hx'
        · exact absurd hxid ht
        · exact ⟨x, hx', hxid⟩
      rcases ih h' with ⟨t₀, ts', hmem, hid, heq, hmem'⟩
      exact ⟨t₀, t :: ts', by simp [hmem], hid,
        by simp [editLoop, ht, heq], by simp [hmem']⟩

/-- C5: an `edit` on a present id saves exactly once, keeps `next_id`, and
returns the updated task, which remains in the collection; its title is the
supplied one when provided; `clear_due` wins over a supplied `due`, else a
supplied `due` replaces the old one; `undone` reverts a completed task to
pending, clearing `completed_at`, and has no effect on a pending task; id
and `created_at` are untouched. -/
theorem edit_found_spec (s : Store) (id_ : Int) (ti du : Option String)
    (cd ud : Bool) (h : ∃ t ∈ s.file.tasks, t.id = id_) :
    ∃ t₀ t', t₀ ∈ s.file.tasks ∧ t₀.id = id_
      ∧ (edit_task id_ ti du cd ud s).1 = some t'
      ∧ (edit_task id_ ti du cd ud s).2.saves = s.saves + 1
      ∧ (edit_task id_ ti du cd ud s).2.file.next_id = s.file.next_id
      ∧ t' ∈ (edit_task id_ ti du cd ud s).2.file.tasks
      ∧ t'.id = t₀.id
      ∧ t'.created_at = t₀.created_at
      ∧ t'.title = ti.getD t₀.title
      ∧ t'.due = (if cd then none else if du.isSome then du else t₀.due)
      ∧ t'.completed = (!ud && t₀.completed)
      ∧ t'.completed_at = (if ud && t₀.completed then none else t₀.completed_at) := by
  rcases editLoop_found id_ ti du cd ud s.file.tasks h with ⟨t₀, ts', hmem, hid, heq, hmem'⟩
  rcases applyEdit_fields ti du cd ud t₀ with ⟨f1, f2, f3, f4, f5, f6⟩
  have hedit : edit_task id_ ti du cd ud s
      = (some (applyEdit ti du cd ud t₀), save_data ⟨s.file.next_id, ts'⟩ s) := by
    unfold edit_task
    rw [heq]
  exact ⟨t₀, applyEdit ti du cd ud t₀, hmem, hid, by rw [hedit], by rw [hedit]; rfl,
    by rw [hedit]; rfl, by rw [hedit]; exact hmem', f1, f2, f3, f4, f5, f6⟩

/-- Witness for C5: edit the completed sample task id 2, supplying a new
title and due date together with the undone flag. -/
theorem edit_found_spec_witness :
    (∃ t ∈ sampleStore.file.tasks, t.id = 2)
    ∧ (∃ t₀ t', t₀ ∈ sampleStore.file.tasks ∧ t₀.id = 2
      ∧ (edit_task 2 (some "beta2") (some "2025-05-05") false true sampleStore).1 = some t'
      ∧ (edit_task 2 (some "beta2") (some "2025-05-05") false true sampleStore).2.saves
          = sampleStore.saves + 1
      ∧ (edit_task 2 (some "beta2") (some "2025-05-05") false true sampleStore).2.file.next_id
          = sampleStore.file.next_id
      ∧ t' ∈ (edit_task 2 (some "beta2") (some "2025-05-05") false true sampleStore).2.file.tasks
      ∧ t'.id = t₀.id
      ∧ t'.created_at = t₀.created_at
      ∧ t'.title = (some "beta2").getD t₀.title
      ∧ t'.due = (if false then none
          else if (some "2025-05-05" : Option String).isSome then some "2025-05-05" else t₀.due)
      ∧ t'.completed = (!true && t₀.completed)
      ∧ t'.completed_at = (if true && t₀.completed then none else t₀.completed_at)) :=
  ⟨by decide,
   edit_found_spec sampleStore 2 (some "beta2") (some "2025-05-05") false true (by decide)⟩

/-- C9: `stats` reports the task count, the completed count, pending as
their truncated difference, and as overdue exactly the pending tasks with a
present due date strictly below today (lexicographically); a task without a
due date or with due equal to today is never overdue.  The hypothesis rules
out the empty-string due value, which the data-model invariant (due absent
or a valid YYYY-MM-DD) already excludes. -/
theorem stats_spec (today : String) (s : Store)
    (h : ∀ t ∈ s.file.tasks, t.due ≠ some "") :
    (stats today s).total = s.file.tasks.length
    ∧ (stats today s).done = s.file.tasks.countP (fun t => t.completed)
    ∧ (stats today s).pending = (stats today s).total - (stats today s).done
    ∧ (stats today s).overdue
        = s.file.tasks.countP (fun t =>
            !t.completed && t.due.isSome && decide ((t.due.getD "") < today))
    ∧ ∀ t : Task, (t.due = none ∨ t.due = some today) → isOverdue today t = false := by
  refine ⟨rfl, rfl, rfl, ?_, ?_⟩
  · refine List.countP_congr ?_
    intro t hmem
    cases hdue : t.due with
    | none => simp [isOverdue, hdue]
    | some d =>
      have hne : ¬ d = "" := by
        intro hd
        exact h t hmem (by rw [hdue, hd])
      simp [isOverdue, hdue, hne]
  · intro t hdue
    have hlt : decide (today < today) = false := decide_eq_false (lt_irrefl today)
    rcases hdue with hdue | hdue
    · simp [isOverdue, hdue]
    · simp [isOverdue, hdue, hlt]

/-- The id list distributes over append. -/
theorem idsOf_append (l1 l2 : List Task) : idsOf (l1 ++ l2) = idsOf l1 ++ idsOf l2 := by
  simp [idsOf]

/-- The mark-done loop never changes the id sequence. -/
theorem markLoop_ids (ids : List Int) (now : String) (ts : List Task) :
    idsOf (markLoop ids now ts).1 = idsOf ts := by
  rw [markLoop_tasks]
  unfold idsOf
  rw [List.map_map]
  refine List.map_congr_left ?_
  intro a _
  by_cases hc : a.id ∈ ids ∧ a.completed = false <;> simp [hc]

/-- A successful edit loop keeps the id sequence, and every task of the
rewritten list is either an original task or the rewrite of one. -/
theorem editLoop_members (id_ : Int) (ti du : Option String) (cd ud : Bool)
    (ts : List Task) : ∀ ts' (u : Task), editLoop id_ ti du cd ud ts = some (u, ts') →
    idsOf ts' = idsOf ts
      ∧ ∀ x ∈ ts', x ∈ ts ∨ ∃ t₀ ∈ ts, x = applyEdit ti du cd ud t₀ := by
  induction ts with
  | nil => intro ts' u h; simp [editLoop] at h
  | cons t ts ih =>
    intro ts' u h
    by_cases ht : t.id = id_
    · simp only [editLoop, if_pos ht, Option.some.injEq, Prod.mk.injEq] at h
      obtain ⟨-, hts⟩ := h
      subst hts
      constructor
      · simp [idsOf, (applyEdit_fields ti du cd ud t).1]
      · intro x hx
        rcases List.mem_cons.mp hx with rfl | hx'
        · exact Or.inr ⟨t, List.mem_cons_self t ts, rfl⟩
        · exact Or.inl (List.mem_cons_of_mem t hx')
    · simp only [editLoop, if_neg ht] at h
      cases hrec : editLoop id_ ti du cd ud ts with
      | none => rw [hrec] at h; exact absurd h (by simp)
      | some p =>
        obtain ⟨u', ts''⟩ := p
        rw [hrec] at h
        simp only [Option.some.injEq, Prod.mk.injEq] at h
        obtain ⟨-, hts⟩ := h
        subst hts
        obtain ⟨hids, hmem⟩ := ih ts'' u' hrec
        constructor
        · simp [idsOf] at hids ⊢
          exact hids
        · intro x hx
          rcases List.mem_cons.mp hx with rfl | hx'
          · exact Or.inl (List.mem_cons_self x ts)
          · rcases hmem x hx' with hin | ⟨t₀, ht₀, hxe⟩
            · exact Or.inl (List.mem_cons_of_mem t hin)
            · exact Or.inr ⟨t₀, List.mem_cons_of_mem t ht₀, hxe⟩

/-- The rewrite applied by `edit_task` keeps the completion-timestamp
discipline on the task it touches. -/
theorem applyEdit_stamp (ti du : Option String) (cd ud : Bool) (t : Task)
    (h : t.completed_at.isSome = t.completed) :
    (applyEdit ti du cd ud t).completed_at.isSome = (applyEdit ti du cd ud t).completed := by
  rcases applyEdit_fields ti du cd ud t with ⟨-, -, -, -, f5, f6⟩
  rw [f5, f6]
  cases ud <;> cases hc : t.completed <;> simp [hc, h]

/-- String literal disequalities used to steer the clear-mode branches. -/
theorem all_ne_done : ("all" : String) ≠ "done" := by decide

/-- Every single operation preserves the completion-timestamp discipline. -/
theorem stamp_applyOp (mt : String) (o : Op) (s : Store) (h : stampInvariant s.file) :
    stampInvariant (applyOp mt o s).file := by
  cases o with
  | add ti d =>
    intro x hx
    have hx' : x ∈ s.file.tasks ++ [⟨s.file.next_id, ti, false, mt, d, none⟩] := hx
    rcases List.mem_append.mp hx' with hm | hm
    · exact h x hm
    · rw [List.mem_singleton.mp hm]
      rfl
  | del ids =>
    intro x hx
    have hx' : x ∈ s.file.tasks.filter (fun t => !(ids.contains t.id)) := hx
    exact h x (List.mem_of_mem_filter hx')
  | done ids now =>
    intro x hx
    have hx' : x ∈ (markLoop ids now s.file.tasks).1 := hx
    rw [markLoop_tasks] at hx'
    rcases List.mem_map.mp hx' with ⟨a, ha, rfl⟩
    by_cases hc : a.id ∈ ids ∧ a.completed = false
    · rw [if_pos hc]
      rfl
    · rw [if_neg hc]
      exact h a ha
  | edit i ti d c u =>
    cases hrec : editLoop i ti d c u s.file.tasks with
    | none =>
      have e : applyOp mt (.edit i ti d c u) s = s := by
        simp [applyOp, edit_task, hrec]
      rw [e]
      exact h
    | some p =>
      obtain ⟨u', ts'⟩ := p
      obtain ⟨-, hmem⟩ := editLoop_members i ti d c u s.file.tasks ts' u' hrec
      have e : applyOp mt (.edit i ti d c u) s = save_data ⟨s.file.next_id, ts'⟩ s := by
        simp [applyOp, edit_task, hrec]
      rw [e]
      intro x hx
      rcases hmem x hx with hin | ⟨t₀, ht₀, rfl⟩
      · exact h x hin
      · exact applyEdit_stamp ti d c u t₀ (h t₀ ht₀)
  | clear m =>
    by_cases hd : m = "done"
    · subst hd
      intro x hx
      have hx' : x ∈ s.file.tasks.filter (fun t => !t.completed) := hx
      exact h x (List.mem_of_mem_filter hx')
    · by_cases ha : m = "all"
      · subst ha
        intro x hx
        have hx' : x ∈ ([] : List Task) := hx
        exact absurd hx' (List.not_mem_nil x)
      · have e : applyOp mt (.clear m) s = s := by
          simp [applyOp, clear_tasks, hd, ha]
        rw [e]
        exact h

/-- The completion-timestamp discipline holds after any operation
sequence. -/
theorem stamp_run (mt : String) (ops : List Op) :
    ∀ s : Store, stampInvariant s.file → stampInvariant (run mt ops s).file := by
  induction ops with
  | nil => intro s h; exact h
  | cons o rest ih => intro s h; exact ih _ (stamp_applyOp mt o s h)

/-- Every single operation preserves the identifier discipline. -/
theorem id_applyOp (mt : String) (o : Op) (s : Store) (h : idInvariant s.file) :
    idInvariant (applyOp mt o s).file := by
  obtain ⟨hpw, hlt, hpos⟩ := h
  cases o with
  | add ti d =>
    have e : (applyOp mt (.add ti d) s).file
        = ⟨s.file.next_id + 1, s.file.tasks ++ [⟨s.file.next_id, ti, false, mt, d, none⟩]⟩ := rfl
    rw [e]
    refine ⟨?_, ?_, ?_⟩
    · rw [show (Collection.mk (s.file.next_id + 1)
          (s.file.tasks ++ [⟨s.file.next_id, ti, false, mt, d, none⟩])).tasks
          = s.file.tasks ++ [⟨s.file.next_id, ti, false, mt, d, none⟩] from rfl]
      rw [idsOf_append, List.pairwise_append]
      refine ⟨hpw, by simp [idsOf], ?_⟩
      intro a ha b hb
      simp only [idsOf, List.mem_map] at ha hb
      rcases ha with ⟨x, hx, rfl⟩
      rcases hb with ⟨y, hy, rfl⟩
      rw [List.mem_singleton.mp hy]
      exact hlt x hx
    · intro t ht
      have ht' : t ∈ s.file.tasks
          ++ [⟨s.file.next_id, ti, false, mt, d, none⟩] := ht
      show t.id < s.file.next_id + 1
      rcases List.mem_append.mp ht' with hm | hm
      · have := hlt t hm
        omega
      · rw [List.mem_singleton.mp hm]
        show s.file.next_id < s.file.next_id + 1
        omega
    · show (1 : Int) ≤ s.file.next_id + 1
      omega
  | del ids =>
    have e : (applyOp mt (.del ids) s).file
        = ⟨s.file.next_id, s.file.tasks.filter (fun t => !(ids.contains t.id))⟩ := rfl
    rw [e]
    refine ⟨?_, ?_, hpos⟩
    · exact hpw.sublist ((List.filter_sublist s.file.tasks).map _)
    · intro t ht
      exact hlt t (List.mem_of_mem_filter ht)
  | done ids now =>
    have e : (applyOp mt (.done ids now) s).file
        = ⟨s.file.next_id, (markLoop ids now s.file.tasks).1⟩ := rfl
    rw [e]
    refine ⟨?_, ?_, hpos⟩
    · show (idsOf (markLoop ids now s.file.tasks).1).Pairwise _
      rw [markLoop_ids]
      exact hpw
    · intro t ht
      have ht' : t ∈ (markLoop ids now s.file.tasks).1 := ht
      rw [markLoop_tasks] at ht'
      rcases List.mem_map.mp ht' with ⟨a, ha, rfl⟩
      by_cases hc : a.id ∈ ids ∧ a.completed = false
      · rw [if_pos hc]
        exact hlt a ha
      · rw [if_neg hc]
        exact hlt a ha
  | edit i ti d c u =>
    cases hrec : editLoop i ti d c u s.file.tasks with
    | none =>
      have e : applyOp mt (.edit i ti d c u) s = s := by
        simp [applyOp, edit_task, hrec]
      rw [e]
      exact ⟨hpw, hlt, hpos⟩
    | some p =>
      obtain ⟨u', ts'⟩ := p
      obtain ⟨hids, hmem⟩ := editLoop_members i ti d c u s.file.tasks ts' u' hrec
      have e : applyOp mt (.edit i ti d c u) s = save_data ⟨s.file.next_id, ts'⟩ s := by
        simp [applyOp, edit_task, hrec]
      rw [e]
      refine ⟨?_, ?_, hpos⟩
      · show (idsOf ts').Pairwise _
        rw [hids]
        exact hpw
      · intro t ht
        rcases hmem t ht with hin | ⟨t₀, ht₀, rfl⟩
        · exact hlt t hin
        · rw [(applyEdit_fields ti d c u t₀).1]
          exact hlt t₀ ht₀
  | clear m =>
    by_cases hd : m = "done"
    · subst hd
      have e : (applyOp mt (.clear "done") s).file
          = ⟨s.file.next_id, s.file.tasks.filter (fun t => !t.completed)⟩ := rfl
      rw [e]
      refine ⟨?_, ?_, hpos⟩
      · exact hpw.sublist ((List.filter_sublist s.file.tasks).map _)
      · intro t ht
        exact hlt t (List.mem_of_mem_filter ht)
    · by_cases ha : m = "all"
      · subst ha
        have e : (applyOp mt (.clear "all") s).file = ⟨1, []⟩ := rfl
        rw [e]
        exact ⟨List.Pairwise.nil, fun t ht => absurd ht (List.not_mem_nil t), le_refl 1⟩
      · have e : applyOp mt (.clear m) s = s := by
          simp [applyOp, clear_tasks, hd, ha]
        rw [e]
        exact ⟨hpw, hlt, hpos⟩

/-- The identifier discipline holds after any operation sequence. -/
theorem id_run (mt : String) (ops : List Op) :
    ∀ s : Store, idInvariant s.file → idInvariant (run mt ops s).file := by
  induction ops with
  | nil => intro s h; exact h
  | cons o rest ih => intro s h; exact ih _ (id_applyOp mt o s h)

/-- No single operation other than a full clear ever lowers `next_id`. -/
theorem nextid_applyOp_mono (mt : String) (o : Op) (s : Store)
    (h : o ≠ Op.clear "all") :
    s.file.next_id ≤ (applyOp mt o s).file.next_id := by
  cases o with
  | add ti d =>
    show s.file.next_id ≤ s.file.next_id + 1
    omega
  | del ids => exact le_of_eq rfl
  | done ids now => exact le_of_eq rfl
  | edit i ti d c u =>
    cases hrec : editLoop i ti d c u s.file.tasks with
    | none =>
      have e : applyOp mt (.edit i ti d c u) s = s := by
        simp [applyOp, edit_task, hrec]
      rw [e]
    | some p =>
      obtain ⟨u', ts'⟩ := p
      have e : applyOp mt (.edit i ti d c u) s = save_data ⟨s.file.next_id, ts'⟩ s := by
        simp [applyOp, edit_task, hrec]
      rw [e]
      exact le_of_eq rfl
  | clear m =>
    by_cases hd : m = "done"
    · subst hd
      exact le_of_eq rfl
    · by_cases ha : m = "all"
      · exact absurd (ha ▸ rfl) h
      · have e : applyOp mt (.clear m) s = s := by
          simp [applyOp, clear_tasks, hd, ha]
        rw [e]

/-- Without a full clear in the sequence, `next_id` never decreases. -/
theorem nextid_run_mono (mt : String) (ops : List Op) :
    ∀ s : Store, Op.clear "all" ∉ ops →
      s.file.next_id ≤ (run mt ops s).file.next_id := by
  induction ops with
  | nil => intro s _; exact le_refl _
  | cons o rest ih =>
    intro s h
    have h1 : o ≠ Op.clear "all" := fun e => h (e ▸ List.mem_cons_self o rest)
    have h2 : Op.clear "all" ∉ rest := fun e => h (List.mem_cons_of_mem o e)
    exact le_trans (nextid_applyOp_mono mt o s h1) (ih _ h2)

/-- C1: from the empty collection, any sequence of operations keeps the ids
strictly increasing in creation order (hence distinct) and below `next_id`;
`add` issues exactly the current `next_id` and increments it; `delete` and
`clear "done"` keep `next_id`; `clear "all"` resets it to 1 so the next add
issues id 1; and without a full clear `next_id` never decreases, so an
issued id is never issued again. -/
theorem id_discipline_spec :
    (∀ (mt : String) (ops : List Op), idInvariant (run mt ops store0).file)
    ∧ (∀ (ti : String) (d : Option String) (mt : String) (s : Store),
        (add_task ti d mt s).1.id = s.file.next_id
        ∧ (add_task ti d mt s).2.file.next_id = s.file.next_id + 1)
    ∧ (∀ (ids : List Int) (s : Store),
        (delete_tasks ids s).2.file.next_id = s.file.next_id)
    ∧ (∀ (s : Store) (n : Nat) (s' : Store),
        clear_tasks "done" s = Except.ok (n, s') → s'.file.next_id = s.file.next_id)
    ∧ (∀ (s : Store) (n : Nat) (s' : Store),
        clear_tasks "all" s = Except.ok (n, s') →
          s'.file.next_id = 1
          ∧ ∀ (ti : String) (d : Option String) (mt : String),
              (add_task ti d mt s').1.id = 1)
    ∧ (∀ (mt : String) (ops : List Op) (s : Store), Op.clear "all" ∉ ops →
        s.file.next_id ≤ (run mt ops s).file.next_id) := by
  refine ⟨?_, fun ti d mt s => ⟨rfl, rfl⟩, fun ids s => rfl, ?_, ?_, nextid_run_mono⟩
  · intro mt ops
    refine id_run mt ops store0 ⟨List.Pairwise.nil, ?_, le_refl 1⟩
    intro t ht
    exact absurd ht (List.not_mem_nil t)
  · intro s n s' h
    have e : clear_tasks "done" s
        = Except.ok (s.file.tasks.length
            - (s.file.tasks.filter (fun t => !t.completed)).length,
          save_data ⟨s.file.next_id, s.file.tasks.filter (fun t => !t.completed)⟩ s) := rfl
    rw [e] at h
    simp only [Except.ok.injEq, Prod.mk.injEq] at h
    rw [← h.2]
    rfl
  · intro s n s' h
    have e : clear_tasks "all" s
        = Except.ok (s.file.tasks.length, save_data ⟨1, []⟩ s) := by
      unfold clear_tasks
      rw [if_neg all_ne_done, if_pos rfl]
    rw [e] at h
    simp only [Except.ok.injEq, Prod.mk.injEq] at h
    rw [← h.2]
    exact ⟨rfl, fun ti d mt => rfl⟩

/-- Witness for C1: a concrete mixed operation sequence from the empty
store, and a concrete sequence without a full clear for the monotonicity
part. -/
theorem id_discipline_spec_witness :
    idInvariant (run "M" [Op.add "a" none, Op.add "b" (some "2025-01-01"),
        Op.done [1] "N", Op.del [2], Op.clear "done"] store0).file
    ∧ (Op.clear "all" ∉ [Op.add "a" none, Op.del [1], Op.clear "done"]
        ∧ store0.file.next_id
            ≤ (run "M" [Op.add "a" none, Op.del [1], Op.clear "done"] store0).file.next_id)
    ∧ (clear_tasks "all" sampleStore
          = Except.ok (3, ⟨⟨1, []⟩, 1⟩)
        ∧ (⟨⟨1, []⟩, 1⟩ : Store).file.next_id = 1) :=
  ⟨id_discipline_spec.1 "M" _,
   ⟨by decide,
    id_discipline_spec.2.2.2.2.2 "M" [Op.add "a" none, Op.del [1], Op.clear "done"]
      store0 (by decide)⟩,
   rfl,
   (id_discipline_spec.2.2.2.2.1 sampleStore 3 ⟨⟨1, []⟩, 1⟩ rfl).1⟩

/-- C7: reachable collections satisfy the completion-timestamp invariant:
`completed_at` is present exactly when `completed` is true; and `add`
creates a task pending with no completion stamp. -/
theorem completion_stamp_spec :
    (∀ (mt : String) (ops : List Op), stampInvariant (run mt ops store0).file)
    ∧ (∀ (ti : String) (d : Option String) (mt : String) (s : Store),
        (add_task ti d mt s).1.completed = false
        ∧ (add_task ti d mt s).1.completed_at = none) := by
  refine ⟨?_, fun ti d mt s => ⟨rfl, rfl⟩⟩
  intro mt ops
  refine stamp_run mt ops store0 ?_
  intro t ht
  exact absurd ht (List.not_mem_nil t)

/-- The key order is total. -/
theorem keyLe_total (x y : Nat × String × String) : keyLe x y ∨ keyLe y x := by
  unfold keyLe
  rcases lt_trichotomy x.1 y.1 with h | h | h
  · exact Or.inl (Or.inl h)
  · rcases lt_trichotomy x.2.1 y.2.1 with h2 | h2 | h2
    · exact Or.inl (Or.inr ⟨h, Or.inl h2⟩)
    · rcases le_total x.2.2 y.2.2 with h3 | h3
      · exact Or.inl (Or.inr ⟨h, Or.inr ⟨h2, h3⟩⟩)
      · exact Or.inr (Or.inr ⟨h.symm, Or.inr ⟨h2.symm, h3⟩⟩)
    · exact Or.inr (Or.inr ⟨h.symm, Or.inl h2⟩)
  · exact Or.inr (Or.inl h)

/-- The key order is transitive. -/
theorem keyLe_trans {x y z : Nat × String × String}
    (h1 : keyLe x y) (h2 : keyLe y z) : keyLe x z := by
  unfold keyLe at h1 h2 ⊢
  rcases h1 with h1 | ⟨e1, h1⟩
  · rcases h2 with h2 | ⟨e2, h2⟩
    · exact Or.inl (h1.trans h2)
    · exact Or.inl (h1.trans_eq e2)
  · rcases h2 with h2 | ⟨e2, h2⟩
    · exact Or.inl (e1.trans_lt h2)
    · refine Or.inr ⟨e1.trans e2, ?_⟩
      rcases h1 with h1 | ⟨f1, h1⟩
      · rcases h2 with h2 | ⟨f2, h2⟩
        · exact Or.inl (h1.trans h2)
        · exact Or.inl (h1.trans_eq f2)
      · rcases h2 with h2 | ⟨f2, h2⟩
        · exact Or.inl (f1.trans_lt h2)
        · exact Or.inr ⟨f1.trans f2, h1.trans h2⟩

instance : IsTotal Task pendingAllLe := ⟨fun a b => keyLe_total (sortKey a) (sortKey b)⟩

instance : IsTrans Task pendingAllLe := ⟨fun _ _ _ => keyLe_trans⟩

/-- C8: for the pending and all views, the returned sequence is a
permutation of the status filter sorted by the key
`((has-no-due, due-or-sentinel), created_at)`: any two listed tasks appear
in non-decreasing key order, so a dated task precedes an undated one, an
earlier due date precedes a later one, and key ties (same due slot) are
ordered by `created_at`. -/
theorem list_tasks_sorted (kind : String) (s : Store)
    (h : kind = "pending" ∨ kind = "all") :
    (list_tasks kind s).Pairwise pendingAllLe
    ∧ (list_tasks kind s).Perm
        (if kind = "pending" then s.file.tasks.filter (fun t => !t.completed)
         else s.file.tasks) := by
  rcases h with rfl | rfl
  · have e : list_tasks "pending" s
        = List.insertionSort pendingAllLe (s.file.tasks.filter (fun t => !t.completed)) := rfl
    rw [e, if_pos rfl]
    exact ⟨List.sorted_insertionSort pendingAllLe _, List.perm_insertionSort pendingAllLe _⟩
  · have hne : ("all" : String) ≠ "pending" := by decide
    have hnd : ("all" : String) ≠ "done" := by decide
    have e : list_tasks "all" s = List.insertionSort pendingAllLe s.file.tasks := rfl
    rw [e, if_neg hne]
    exact ⟨List.sorted_insertionSort pendingAllLe _, List.perm_insertionSort pendingAllLe _⟩

/-- Witness for C8: the pending view of the sample store. -/
theorem list_tasks_sorted_witness :
    (list_tasks "pending" sampleStore).Pairwise pendingAllLe
    ∧ (list_tasks "pending" sampleStore).Perm
        (if "pending" = "pending"
         then sampleStore.file.tasks.filter (fun t => !t.completed)
         else sampleStore.file.tasks) :=
  list_tasks_sorted "pending" sampleStore (Or.inl rfl)

/-- Witness for C9: concrete stats on the sample store with sample today. -/
theorem stats_spec_witness :
    (∀ t ∈ sampleStore.file.tasks, t.due ≠ some "")
    ∧ (stats "2025-01-20" sampleStore).overdue
        = sampleStore.file.tasks.countP (fun t =>
            !t.completed && t.due.isSome && decide ((t.due.getD "") < "2025-01-20")) :=
  ⟨by decide, (stats_spec "2025-01-20" sampleStore (by decide)).2.2.2.1⟩

/-- Sanitizing the task records fails as soon as any record fails. -/
theorem mapFromDict_error (now : String) (l : List Json) (e : Json) (he : e ∈ l)
    (hf : ∃ m, from_dict now e = Except.error m) :
    ∃ m', mapFromDict now l = Except.error m' := by
  induction l with
  | nil => simp at he
  | cons x l ih =>
    cases hx : from_dict now x with
    | error m => exact ⟨m, by simp [mapFromDict, hx]⟩
    | ok t =>
      rcases List.mem_cons.mp he with rfl | he'
      · rcases hf with ⟨m, hm⟩
        rw [hx] at hm
        exact absurd hm (by simp)
      · rcases ih he' with ⟨m', hm'⟩
        exact ⟨m', by simp [mapFromDict, hx, hm']⟩

/-- C3 (amended): an absent file loads as the empty collection with
`next_id` 1; a JSON-unparseable file, a non-object root, a non-iterable
`tasks` value, and any iterated task record that fails reconstruction (in
particular an id that `int()` rejects) each abort the load fatally.  The
validation goes no further than those checks (see the counterexample for a
structurally deviant file that still loads). -/
theorem load_data_checks :
    (∀ now, load_data now FileState.absent = LoadResult.ok (Json.num 1) [])
    ∧ (∀ now, ∃ m, load_data now FileState.unparseable = LoadResult.fatal m)
    ∧ (∀ now (j : Json), (∀ kvs, j ≠ Json.obj kvs) →
        ∃ m, load_data now (FileState.parsed j) = LoadResult.fatal m)
    ∧ (∀ now nid, ∃ m, load_data now (FileState.parsed
        (Json.obj [("next_id", nid), ("tasks", Json.num 0)])) = LoadResult.fatal m)
    ∧ (∀ now (elems : List Json) (e : Json), e ∈ elems →
        (∃ m, from_dict now e = Except.error m) →
        ∃ m', load_data now (FileState.parsed (Json.obj [("tasks", Json.arr elems)]))
          = LoadResult.fatal m')
    ∧ (∀ now, ∃ m, from_dict now
        (Json.obj [("id", Json.str "xyz"), ("title", Json.str "t")]) = Except.error m) := by
  refine ⟨fun now => rfl, fun now => ⟨_, rfl⟩, ?_, fun now nid => ⟨_, rfl⟩, ?_,
    fun now => ⟨"ValueError: invalid literal for int", by rfl⟩⟩
  · intro now j h
    cases j with
    | obj kvs => exact absurd rfl (h kvs)
    | null => exact ⟨_, rfl⟩
    | bool b => exact ⟨_, rfl⟩
    | num n => exact ⟨_, rfl⟩
    | str s => exact ⟨_, rfl⟩
    | arr xs => exact ⟨_, rfl⟩
  · intro now elems e he hf
    rcases mapFromDict_error now elems e he hf with ⟨m', hm'⟩
    have estep : load_data now (FileState.parsed (Json.obj [("tasks", Json.arr elems)]))
        = (match mapFromDict now elems with
           | .error m => LoadResult.fatal m
           | .ok ts => LoadResult.ok (Json.num 1) ts) := rfl
    rw [estep, hm']
    exact ⟨m', rfl⟩

/-- Witness for C3: a numeric root is fatal, and a record whose id raises
inside `int()` aborts the load. -/
theorem load_data_checks_witness :
    ((∀ kvs, Json.num 7 ≠ Json.obj kvs)
      ∧ ∃ m, load_data "N" (FileState.parsed (Json.num 7)) = LoadResult.fatal m)
    ∧ (Json.num 3 ∈ [Json.num 3]
      ∧ (∃ m, from_dict "N" (Json.num 3) = Except.error m)
      ∧ ∃ m', load_data "N" (FileState.parsed
          (Json.obj [("tasks", Json.arr [Json.num 3])])) = LoadResult.fatal m') :=
  ⟨⟨fun _ h => Json.noConfusion h,
    load_data_checks.2.2.1 "N" (Json.num 7) (fun _ h => Json.noConfusion h)⟩,
   ⟨List.mem_cons_self _ _, ⟨_, rfl⟩,
    load_data_checks.2.2.2.2.1 "N" [Json.num 3] (Json.num 3)
      (List.mem_cons_self _ _) ⟨_, rfl⟩⟩⟩

/-- Counterexample for C3 as frozen: two files that do not match the
documented structural format — a `next_id` holding a string, and a `tasks`
holding the empty string instead of an array — are both accepted by
`load_data`, the second yielding a silently empty collection, instead of
failing with a fatal error. -/
theorem load_structure_counterexample :
    load_data "2025-01-01T00:00:00Z"
        (FileState.parsed (Json.obj [("next_id", Json.str "abc"), ("tasks", Json.arr [])]))
      = LoadResult.ok (Json.str "abc") []
    ∧ load_data "2025-01-01T00:00:00Z"
        (FileState.parsed (Json.obj [("tasks", Json.str "")]))
      = LoadResult.ok (Json.num 1) [] :=
  ⟨rfl, rfl⟩

end Todo
